import Mathlib

/-!
Shallow embedding of the load-testing engine in `main.go`
(`checkStatus`, `runAPITest`, `calculateAverageDuration`).

Modelling conventions:
* `time.Duration` is a signed 64-bit nanosecond count in Go; latencies are
  modelled as `Int`.  The Go code stringifies each duration with
  `Duration.String` and re-parses it with `time.ParseDuration`, a documented
  exact round trip, so the string hop is modelled as the identity.
* Go `int` counters only ever increase from zero and stay far below `2^63`
  in any physically executable run, so they are modelled as `Nat`.
* A Go `map[int]int` is modelled as an association list `List (Int × Nat)`;
  `m[k]++` increments the first entry for `k` or appends `(k, 1)`.
* The result channel of one cycle is modelled as a function
  `deliver : Nat → List RequestResult` giving, for each 1-based cycle index,
  the results in their (nondeterministic) arrival order; theorems that need
  the fan-out/fan-in discipline assume `deliver c` is a permutation of the
  `numGoroutines` launched probe results of cycle `c`.
* The `progress` callback and the goroutine launches are recorded in an
  event trace instead of performing effects.
-/

/-- One probe outcome, embedding Go's `RequestResult` struct.  `duration`
holds the elapsed nanoseconds (the Go field stores its string form). -/
structure RequestResult where
  id : Int
  url : String
  status : String
  error : String
  duration : Int
deriving DecidableEq, Repr

/-- The transport-level outcome of `http.Get`: either a non-nil Go `error`
(carrying `err.Error()`), or a completed response (carrying `resp.Status`,
the textual status line such as `"200 OK"`). -/
inductive HTTPResult where
  | failure (msg : String)
  | response (status : String)
deriving DecidableEq, Repr

/-- Embedding of `checkStatus` (main.go lines 46-64): build the
`RequestResult` for one probe, given the transport outcome `net` and the
measured elapsed time `elapsed`.  On error the `error` field is set and
`status` stays `""`; on a completed exchange `status` is set and `error`
stays `""`; `duration` is set in both branches. -/
def checkStatus (url : String) (id : Int) (net : HTTPResult) (elapsed : Int) :
    RequestResult :=
  match net with
  | .failure msg =>
      { id := id, url := url, status := "", error := msg, duration := elapsed }
  | .response st =>
      { id := id, url := url, status := st, error := "", duration := elapsed }

/-- The classification used by the reduction loop (main.go line 97):
an outcome counts as a success iff its error string is empty, which is
how `result.Error == ""` reads back whether `http.Get` returned an error. -/
def isSucc (r : RequestResult) : Bool :=
  r.error == ""

/-- Characters skipped by `fmt.Sscanf` before a `%d` verb.  Go skips Unicode
space runes other than newline; the ASCII ones are the only spaces that can
occur here and a newline or carriage return makes the scan fail, which the
model reflects because neither is a digit or sign. -/
def isScanSpace (c : Char) : Bool :=
  c = ' ' || c = '\t' || c = '\x0b' || c = '\x0c'

/-- Value of a list of decimal digit characters. -/
def digitsToNat (ds : List Char) : Nat :=
  ds.foldl (fun a c => a * 10 + (c.toNat - 48)) 0

/-- Conversion of a scanned digit run to the Go `int` value: with no digits,
or a value outside the 64-bit signed range, `strconv.ParseInt` errors, the
scan fails, and `statusCode` keeps its zero value `0`. -/
def goScanDigits (ds : List Char) (neg : Bool) : Int :=
  if ds.isEmpty then 0
  else if neg then
    (if digitsToNat ds ≤ 2 ^ 63 then -(digitsToNat ds : Int) else 0)
  else
    (if digitsToNat ds < 2 ^ 63 then (digitsToNat ds : Int) else 0)

/-- Embedding of `fmt.Sscanf(s, "%d", &statusCode)` with `statusCode`
initially `0` (main.go lines 101-102): skip spaces, read an optional sign
and a run of decimal digits, then convert with `goScanDigits`. -/
def sscanfInt (s : String) : Int :=
  match s.data.dropWhile isScanSpace with
  | [] => 0
  | c :: rest =>
      if c = '+' then goScanDigits (rest.takeWhile Char.isDigit) false
      else if c = '-' then goScanDigits (rest.takeWhile Char.isDigit) true
      else goScanDigits ((c :: rest).takeWhile Char.isDigit) false

/-- Embedding of the Go map update `m[code]++`: bump the entry for `code`,
creating it at `1` (zero value plus one) when absent. -/
def histIncr : List (Int × Nat) → Int → List (Int × Nat)
  | [], code => [(code, 1)]
  | (k, v) :: rest, code =>
      if k = code then (k, v + 1) :: rest else (k, v) :: histIncr rest code

/-- Fold `histIncr` over a list of codes. -/
def histAll (m : List (Int × Nat)) (codes : List Int) : List (Int × Nat) :=
  codes.foldl histIncr m

/-- Reading a histogram entry (Go map read, zero value `0` when absent). -/
def histCount : List (Int × Nat) → Int → Nat
  | [], _ => 0
  | (k, v) :: rest, code => if k = code then v else histCount rest code

/-- Sum of all values stored in the histogram. -/
def histValueSum (m : List (Int × Nat)) : Nat :=
  (m.map (fun kv => kv.2)).sum

/-- Embedding of Go's `CycleStats` struct.  `avgDurationMS = none` models the
zero value `""` of the Go string field (the average was never written);
`some d` models the string form of the duration `d`, which is never `""`. -/
structure CycleStats where
  cycleNumber : Nat
  totalRequests : Nat
  successCount : Nat
  errorCount : Nat
  avgDurationMS : Option Int
  responseCodes : List (Int × Nat)
deriving DecidableEq, Repr

/-- Embedding of Go's `Report` struct, with the same conventions. -/
structure Report where
  totalRequests : Nat
  successCount : Nat
  errorCount : Nat
  avgDurationMS : Option Int
  responseCodes : List (Int × Nat)
  cycleDetails : List CycleStats
deriving DecidableEq, Repr

/-- The `Report` literal built at the top of `runAPITest` (main.go 69-72). -/
def report0 : Report :=
  { totalRequests := 0, successCount := 0, errorCount := 0,
    avgDurationMS := none, responseCodes := [], cycleDetails := [] }

/-- Embedding of `calculateAverageDuration` (main.go 132-138): sum the
durations with a running `total += d` and divide by the length.  Go's `/` on
the signed integer type `time.Duration` truncates toward zero, which is
`Int.tdiv`. -/
def calculateAverageDuration (durations : List Int) : Int :=
  Int.tdiv (durations.foldl (· + ·) 0) (durations.length : Int)

/-- One iteration of the drain loop `for result := range results`
(main.go 94-113), acting on the tuple
(report, cycleStats, totalDurations, cycleDurations). -/
def drainStep (st : Report × CycleStats × List Int × List Int)
    (result : RequestResult) : Report × CycleStats × List Int × List Int :=
  match st with
  | (report, cycleStats, totalDurations, cycleDurations) =>
    if result.error == "" then
      ({ report with
          totalRequests := report.totalRequests + 1,
          successCount := report.successCount + 1,
          responseCodes := histIncr report.responseCodes (sscanfInt result.status) },
       { cycleStats with
          totalRequests := cycleStats.totalRequests + 1,
          successCount := cycleStats.successCount + 1,
          responseCodes := histIncr cycleStats.responseCodes (sscanfInt result.status) },
       totalDurations ++ [result.duration],
       cycleDurations ++ [result.duration])
    else
      ({ report with
          totalRequests := report.totalRequests + 1,
          errorCount := report.errorCount + 1 },
       { cycleStats with
          totalRequests := cycleStats.totalRequests + 1,
          errorCount := cycleStats.errorCount + 1 },
       totalDurations,
       cycleDurations)

/-- Embedding of one body of the cycle loop (main.go 77-120): start a fresh
`CycleStats` with the fresh empty response-code map, drain the delivered
results, set the cycle average iff some success duration was collected, and
append the cycle to `report.cycleDetails`.  Returns the updated report and
the updated `totalDurations`. -/
def cycleBody (cycle : Nat) (delivered : List RequestResult)
    (report : Report) (totalDurations : List Int) : Report × List Int :=
  let init : CycleStats :=
    { cycleNumber := cycle, totalRequests := 0, successCount := 0,
      errorCount := 0, avgDurationMS := none, responseCodes := [] }
  match delivered.foldl drainStep (report, init, totalDurations, []) with
  | (report, cycleStats, totalDurations, cycleDurations) =>
    let cycleStats :=
      if 0 < cycleDurations.length then
        { cycleStats with
            avgDurationMS := some (calculateAverageDuration cycleDurations) }
      else cycleStats
    ({ report with cycleDetails := report.cycleDetails ++ [cycleStats] },
     totalDurations)

/-- Observable events of the loop: a `progress cycle` callback invocation
and the launch `go checkStatus(url, i, ...)` of probe `i` of a cycle. -/
inductive Event where
  | progress (cycle : Nat)
  | dispatch (cycle : Nat) (i : Nat)
deriving DecidableEq, Repr

/-- The events of one cycle in program order: the `progress(cycle)` call
(main.go 75), then the `numGoroutines` goroutine launches (main.go 80-83). -/
def cycleTrace (numGoroutines cycle : Nat) : List Event :=
  Event.progress cycle :: (List.range numGoroutines).map (Event.dispatch cycle)

/-- State of `runAPITest` after the first `m` iterations of the cycle loop
(main.go 74-121): the report so far, the `totalDurations` slice, and the
event trace.  Cycle `m` runs last, so the loop runs cycles 1, 2, ..., m in
order. -/
def runCyclesUpTo (numGoroutines : Nat) (deliver : Nat → List RequestResult) :
    Nat → Report × List Int × List Event
  | 0 => (report0, [], [])
  | m + 1 =>
    match runCyclesUpTo numGoroutines deliver m with
    | (report, totalDurations, trace) =>
      match cycleBody (m + 1) (deliver (m + 1)) report totalDurations with
      | (report, totalDurations) =>
        (report, totalDurations, trace ++ cycleTrace numGoroutines (m + 1))

/-- Embedding of `runAPITest` (main.go 67-129): run `maxCycles` cycles, then
set the run-level average iff any success duration was collected.  The
returned trace records the callback invocations and probe launches. -/
def runAPITest (numGoroutines maxCycles : Nat)
    (deliver : Nat → List RequestResult) : Report × List Event :=
  match runCyclesUpTo numGoroutines deliver maxCycles with
  | (report, totalDurations, trace) =>
    let report :=
      if 0 < totalDurations.length then
        { report with
            avgDurationMS := some (calculateAverageDuration totalDurations) }
      else report
    (report, trace)

/-- The list of results produced by the `numGoroutines` probes launched in
one cycle (main.go 80-83), in launch order: probe `i` runs `checkStatus`
with id `i`, transport outcome `net cycle i` and elapsed time
`dur cycle i`. -/
def launchedResults (url : String) (numGoroutines : Nat)
    (net : Nat → Nat → HTTPResult) (dur : Nat → Nat → Int) (cycle : Nat) :
    List RequestResult :=
  (List.range numGoroutines).map
    (fun i => checkStatus url (Int.ofNat i) (net cycle i) (dur cycle i))

/-! ### Derived quantities of a delivered result list -/

/-- The successful outcomes of a result list (those the drain loop counts
as successes). -/
def succResults (l : List RequestResult) : List RequestResult :=
  l.filter isSucc

/-- Number of successful outcomes. -/
def nSucc (l : List RequestResult) : Nat :=
  l.countP isSucc

/-- Number of error outcomes. -/
def nErr (l : List RequestResult) : Nat :=
  l.countP (fun r => !isSucc r)

/-- The parsed status codes of the successful outcomes, in order. -/
def succCodes (l : List RequestResult) : List Int :=
  (succResults l).map (fun r => sscanfInt r.status)

/-- The latencies of the successful outcomes, in order. -/
def succDurs (l : List RequestResult) : List Int :=
  (succResults l).map (fun r => r.duration)

/-- Closed form of the `CycleStats` value produced by one cycle whose drain
loop consumed the result list `l`. -/
def mkCycleStats (cycle : Nat) (l : List RequestResult) : CycleStats :=
  { cycleNumber := cycle,
    totalRequests := l.length,
    successCount := nSucc l,
    errorCount := nErr l,
    avgDurationMS :=
      if 0 < nSucc l then some (calculateAverageDuration (succDurs l)) else none,
    responseCodes := histAll [] (succCodes l) }

/-- Closed form of `cycleDetails` after the first `m` cycles. -/
def cyclesList (deliver : Nat → List RequestResult) : Nat → List CycleStats
  | 0 => []
  | m + 1 => cyclesList deliver m ++ [mkCycleStats (m + 1) (deliver (m + 1))]

/-- Closed form of `totalDurations` after the first `m` cycles: all success
latencies of the run, in cycle order. -/
def allSuccDurs (deliver : Nat → List RequestResult) : Nat → List Int
  | 0 => []
  | m + 1 => allSuccDurs deliver m ++ succDurs (deliver (m + 1))

/-- All parsed success status codes of the run, in cycle order. -/
def allSuccCodes (deliver : Nat → List RequestResult) : Nat → List Int
  | 0 => []
  | m + 1 => allSuccCodes deliver m ++ succCodes (deliver (m + 1))

/-- Sum of a per-cycle quantity `f` over the first `m` cycles. -/
def totalOf (f : List RequestResult → Nat)
    (deliver : Nat → List RequestResult) : Nat → Nat
  | 0 => 0
  | m + 1 => totalOf f deliver m + f (deliver (m + 1))

/-- Closed form of the event trace after the first `m` cycles. -/
def traceUpTo (numGoroutines : Nat) : Nat → List Event
  | 0 => []
  | m + 1 => traceUpTo numGoroutines m ++ cycleTrace numGoroutines (m + 1)

/-! ### Basic lemmas -/

theorem succResults_cons (r : RequestResult) (l : List RequestResult) :
    succResults (r :: l) =
      if isSucc r then r :: succResults l else succResults l := by
  simp [succResults, List.filter_cons]

theorem nSucc_cons (r : RequestResult) (l : List RequestResult) :
    nSucc (r :: l) = nSucc l + (if isSucc r then 1 else 0) := by
  simp [nSucc, List.countP_cons]

theorem nErr_cons (r : RequestResult) (l : List RequestResult) :
    nErr (r :: l) = nErr l + (if isSucc r then 0 else 1) := by
  by_cases h : isSucc r <;> simp [nErr, List.countP_cons, h]

theorem succCodes_cons (r : RequestResult) (l : List RequestResult) :
    succCodes (r :: l) =
      if isSucc r then sscanfInt r.status :: succCodes l else succCodes l := by
  by_cases h : isSucc r <;> simp [succCodes, succResults_cons, h]

theorem succDurs_cons (r : RequestResult) (l : List RequestResult) :
    succDurs (r :: l) =
      if isSucc r then r.duration :: succDurs l else succDurs l := by
  by_cases h : isSucc r <;> simp [succDurs, succResults_cons, h]

theorem succDurs_length (l : List RequestResult) :
    (succDurs l).length = nSucc l := by
  simp [succDurs, succResults, nSucc, List.countP_eq_length_filter]

theorem nSucc_add_nErr (l : List RequestResult) :
    nSucc l + nErr l = l.length := by
  induction l with
  | nil => rfl
  | cons r l ih =>
    by_cases h : isSucc r <;>
      simp [nSucc_cons, nErr_cons, h] <;> omega

theorem foldl_add_int (l : List Int) (a : Int) :
    l.foldl (· + ·) a = a + l.sum := by
  induction l generalizing a with
  | nil => simp
  | cons x l ih => simp [ih]; ring

theorem calculateAverageDuration_eq (l : List Int) :
    calculateAverageDuration l = Int.tdiv l.sum (l.length : Int) := by
  simp [calculateAverageDuration, foldl_add_int]

/-! ### Histogram lemmas -/

theorem histCount_histIncr (m : List (Int × Nat)) (c k : Int) :
    histCount (histIncr m c) k = histCount m k + (if k = c then 1 else 0) := by
  induction m with
  | nil =>
    by_cases h : k = c
    · subst h; simp [histIncr, histCount]
    · have h' : ¬ c = k := fun hh => h hh.symm
      simp [histIncr, histCount, h, h']
  | cons kv rest ih =>
    obtain ⟨a, v⟩ := kv
    by_cases hac : a = c
    · subst hac
      by_cases hak : a = k
      · subst hak; simp [histIncr, histCount]
      · have hka : ¬ k = a := fun hh => hak hh.symm
        simp [histIncr, histCount, hak, hka]
    · by_cases hak : a = k
      · subst hak
        have hkc : ¬ a = c := hac
        simp [histIncr, histCount, hac, hkc]
      · simp [histIncr, histCount, hac, hak, ih]

theorem histValueSum_histIncr (m : List (Int × Nat)) (c : Int) :
    histValueSum (histIncr m c) = histValueSum m + 1 := by
  induction m with
  | nil => simp [histIncr, histValueSum]
  | cons kv rest ih =>
    obtain ⟨a, v⟩ := kv
    by_cases hac : a = c <;> simp [histIncr, histValueSum, hac] <;>
      simp [histValueSum] at ih <;> omega

theorem mem_histIncr (m : List (Int × Nat)) (c : Int) (kv : Int × Nat) :
    kv ∈ histIncr m c → kv ∈ m ∨ kv.1 = c := by
  induction m with
  | nil => simp [histIncr]; intro h; simp [h]
  | cons p rest ih =>
    obtain ⟨a, v⟩ := p
    by_cases hac : a = c
    · subst hac
      simp [histIncr]
      rintro (h | h)
      · right; simp [h]
      · left; right; exact h
    · simp [histIncr, hac]
      rintro (h | h)
      · left; left; exact h
      · rcases ih h with h' | h'
        · left; right; exact h'
        · right; exact h'

theorem histCount_histAll (m : List (Int × Nat)) (codes : List Int) (k : Int) :
    histCount (histAll m codes) k = histCount m k + codes.count k := by
  induction codes generalizing m with
  | nil => simp [histAll, List.count_nil]
  | cons c codes ih =>
    have : histAll m (c :: codes) = histAll (histIncr m c) codes := rfl
    rw [this, ih, histCount_histIncr, List.count_cons]
    by_cases h : k = c <;> simp [h] <;> omega

theorem histValueSum_histAll (m : List (Int × Nat)) (codes : List Int) :
    histValueSum (histAll m codes) = histValueSum m + codes.length := by
  induction codes generalizing m with
  | nil => simp [histAll]
  | cons c codes ih =>
    have : histAll m (c :: codes) = histAll (histIncr m c) codes := rfl
    rw [this, ih, histValueSum_histIncr]
    simp [List.length_cons]
    omega

theorem mem_histAll (m : List (Int × Nat)) (codes : List Int) (kv : Int × Nat) :
    kv ∈ histAll m codes → kv ∈ m ∨ kv.1 ∈ codes := by
  induction codes generalizing m with
  | nil => simp [histAll]
  | cons c codes ih =>
    intro h
    have h' : kv ∈ histAll (histIncr m c) codes := h
    rcases ih _ h' with h'' | h''
    · rcases mem_histIncr _ _ _ h'' with h3 | h3
      · left; exact h3
      · right; simp [h3]
    · right; simp [h'']

theorem histAll_append (m : List (Int × Nat)) (xs ys : List Int) :
    histAll m (xs ++ ys) = histAll (histAll m xs) ys := by
  simp [histAll, List.foldl_append]

/-! ### Closed form of the drain loop and the cycle loop -/

theorem foldl_drainStep (l : List RequestResult) (report : Report)
    (cs : CycleStats) (tds cds : List Int) :
    l.foldl drainStep (report, cs, tds, cds) =
      ({ report with
          totalRequests := report.totalRequests + l.length,
          successCount := report.successCount + nSucc l,
          errorCount := report.errorCount + nErr l,
          responseCodes := histAll report.responseCodes (succCodes l) },
       { cs with
          totalRequests := cs.totalRequests + l.length,
          successCount := cs.successCount + nSucc l,
          errorCount := cs.errorCount + nErr l,
          responseCodes := histAll cs.responseCodes (succCodes l) },
       tds ++ succDurs l, cds ++ succDurs l) := by
  induction l generalizing report cs tds cds with
  | nil =>
    simp [nSucc, nErr, succCodes, succDurs, succResults, histAll]
  | cons r l ih =>
    by_cases hr : r.error = ""
    · have hs : isSucc r = true := by simp [isSucc, hr]
      rw [List.foldl_cons]
      have hstep : drainStep (report, cs, tds, cds) r =
          ({ report with
              totalRequests := report.totalRequests + 1,
              successCount := report.successCount + 1,
              responseCodes := histIncr report.responseCodes (sscanfInt r.status) },
           { cs with
              totalRequests := cs.totalRequests + 1,
              successCount := cs.successCount + 1,
              responseCodes := histIncr cs.responseCodes (sscanfInt r.status) },
           tds ++ [r.duration], cds ++ [r.duration]) := by
        simp [drainStep, hr]
      rw [hstep, ih]
      simp [nSucc_cons, nErr_cons, succCodes_cons, succDurs_cons, hs, histAll]
      omega
    · have hs : isSucc r = false := by simp [isSucc, hr]
      rw [List.foldl_cons]
      have hstep : drainStep (report, cs, tds, cds) r =
          ({ report with
              totalRequests := report.totalRequests + 1,
              errorCount := report.errorCount + 1 },
           { cs with
              totalRequests := cs.totalRequests + 1,
              errorCount := cs.errorCount + 1 },
           tds, cds) := by
        simp [drainStep, hr]
      rw [hstep, ih]
      simp [nSucc_cons, nErr_cons, succCodes_cons, succDurs_cons, hs, histAll]
      omega

theorem cycleBody_eq (cycle : Nat) (l : List RequestResult) (report : Report)
    (tds : List Int) :
    cycleBody cycle l report tds =
      ({ report with
          totalRequests := report.totalRequests + l.length,
          successCount := report.successCount + nSucc l,
          errorCount := report.errorCount + nErr l,
          responseCodes := histAll report.responseCodes (succCodes l),
          cycleDetails := report.cycleDetails ++ [mkCycleStats cycle l] },
       tds ++ succDurs l) := by
  unfold cycleBody
  dsimp only
  rw [foldl_drainStep]
  simp [mkCycleStats, succDurs_length]
  by_cases h : 0 < nSucc l <;> simp [h]

theorem runCyclesUpTo_eq (numGoroutines : Nat)
    (deliver : Nat → List RequestResult) (M : Nat) :
    runCyclesUpTo numGoroutines deliver M =
      ({ totalRequests := totalOf (fun l => l.length) deliver M,
         successCount := totalOf nSucc deliver M,
         errorCount := totalOf nErr deliver M,
         avgDurationMS := none,
         responseCodes := histAll [] (allSuccCodes deliver M),
         cycleDetails := cyclesList deliver M },
       allSuccDurs deliver M,
       traceUpTo numGoroutines M) := by
  induction M with
  | zero => simp [runCyclesUpTo, totalOf, allSuccCodes, cyclesList,
                  allSuccDurs, traceUpTo, histAll, report0]
  | succ m ih =>
    show (match runCyclesUpTo numGoroutines deliver m with
      | (report, totalDurations, trace) =>
        match cycleBody (m + 1) (deliver (m + 1)) report totalDurations with
        | (report, totalDurations) =>
          (report, totalDurations, trace ++ cycleTrace numGoroutines (m + 1))) = _
    rw [ih]
    dsimp only
    rw [cycleBody_eq]
    simp [totalOf, allSuccCodes, cyclesList, allSuccDurs, traceUpTo,
          histAll_append]

theorem runAPITest_eq (numGoroutines maxCycles : Nat)
    (deliver : Nat → List RequestResult) :
    runAPITest numGoroutines maxCycles deliver =
      ({ totalRequests := totalOf (fun l => l.length) deliver maxCycles,
         successCount := totalOf nSucc deliver maxCycles,
         errorCount := totalOf nErr deliver maxCycles,
         avgDurationMS :=
           if 0 < (allSuccDurs deliver maxCycles).length then
             some (calculateAverageDuration (allSuccDurs deliver maxCycles))
           else none,
         responseCodes := histAll [] (allSuccCodes deliver maxCycles),
         cycleDetails := cyclesList deliver maxCycles },
       traceUpTo numGoroutines maxCycles) := by
  unfold runAPITest
  rw [runCyclesUpTo_eq]
  by_cases h : 0 < (allSuccDurs deliver maxCycles).length <;> simp [h]

/-! ### Aggregation lemmas -/

theorem allSuccDurs_length (deliver : Nat → List RequestResult) (M : Nat) :
    (allSuccDurs deliver M).length = totalOf nSucc deliver M := by
  induction M with
  | zero => rfl
  | succ m ih => simp [allSuccDurs, totalOf, ih, succDurs_length]

theorem allSuccCodes_length (deliver : Nat → List RequestResult) (M : Nat) :
    (allSuccCodes deliver M).length = totalOf nSucc deliver M := by
  induction M with
  | zero => rfl
  | succ m ih =>
    simp [allSuccCodes, totalOf, ih, succCodes, succResults, nSucc,
          List.countP_eq_length_filter]

theorem cyclesList_eq_map (deliver : Nat → List RequestResult) (M : Nat) :
    cyclesList deliver M =
      (List.range M).map (fun c => mkCycleStats (c + 1) (deliver (c + 1))) := by
  induction M with
  | zero => rfl
  | succ m ih => simp [cyclesList, ih, List.range_succ]

theorem mem_cyclesList (deliver : Nat → List RequestResult) (M : Nat)
    (cs : CycleStats) :
    cs ∈ cyclesList deliver M ↔
      ∃ c, c < M ∧ cs = mkCycleStats (c + 1) (deliver (c + 1)) := by
  rw [cyclesList_eq_map]
  simp [List.mem_map, eq_comm]

theorem cyclesList_getElem (deliver : Nat → List RequestResult) (M c : Nat)
    (h : c < M) :
    (cyclesList deliver M)[c]? = some (mkCycleStats (c + 1) (deliver (c + 1))) := by
  rw [cyclesList_eq_map]
  simp [List.getElem?_map, List.getElem?_range, h]

theorem histCount_mkCycleStats (cycle : Nat) (l : List RequestResult) (k : Int) :
    histCount (mkCycleStats cycle l).responseCodes k = (succCodes l).count k := by
  simp [mkCycleStats, histCount_histAll, histCount]

theorem cyclesList_map_sum (deliver : Nat → List RequestResult) (M : Nat)
    (g : CycleStats → Nat) (f : List RequestResult → Nat)
    (hfg : ∀ c l, g (mkCycleStats c l) = f l) :
    ((cyclesList deliver M).map g).sum = totalOf f deliver M := by
  induction M with
  | zero => rfl
  | succ m ih => simp [cyclesList, totalOf, ih, hfg]

theorem allSuccCodes_count (deliver : Nat → List RequestResult) (M : Nat)
    (k : Int) :
    (allSuccCodes deliver M).count k =
      ((cyclesList deliver M).map
        (fun cs => histCount cs.responseCodes k)).sum := by
  induction M with
  | zero => rfl
  | succ m ih =>
    simp [allSuccCodes, cyclesList, List.count_append, ih,
          histCount_mkCycleStats]

theorem cyclesList_map_cycleNumber (deliver : Nat → List RequestResult)
    (M : Nat) :
    (cyclesList deliver M).map (fun cs => cs.cycleNumber) =
      (List.range M).map (fun c => c + 1) := by
  induction M with
  | zero => rfl
  | succ m ih => simp [cyclesList, ih, List.range_succ, mkCycleStats]

theorem allSuccDurs_sum (deliver : Nat → List RequestResult) (M : Nat) :
    (allSuccDurs deliver M).sum =
      ((List.range M).map (fun c => (succDurs (deliver (c + 1))).sum)).sum := by
  induction M with
  | zero => rfl
  | succ m ih => simp [allSuccDurs, List.range_succ, ih]

theorem totalOf_const (f : List RequestResult → Nat)
    (deliver : Nat → List RequestResult) (M n : Nat)
    (h : ∀ c, 1 ≤ c → c ≤ M → f (deliver c) = n) :
    totalOf f deliver M = M * n := by
  induction M with
  | zero => simp [totalOf]
  | succ m ih =>
    have hm : totalOf f deliver m = m * n := by
      apply ih
      intro c h1 h2
      exact h c h1 (Nat.le_succ_of_le h2)
    simp [totalOf, hm, h (m + 1) (by omega) (by omega)]
    ring

theorem launchedResults_length (url : String) (N : Nat)
    (net : Nat → Nat → HTTPResult) (dur : Nat → Nat → Int) (c : Nat) :
    (launchedResults url N net dur c).length = N := by
  simp [launchedResults]

/-! ### Trace lemmas -/

/-- Extract the argument of a progress-callback event. -/
def progressArg : Event → Option Nat
  | .progress c => some c
  | .dispatch _ _ => none

theorem filterMap_progressArg_cycleTrace (N c : Nat) :
    (cycleTrace N c).filterMap progressArg = [c] := by
  simp [cycleTrace, List.filterMap_cons, progressArg, List.filterMap_map,
        List.filterMap_eq_nil_iff, Function.comp]

theorem filterMap_progressArg_traceUpTo (N M : Nat) :
    (traceUpTo N M).filterMap progressArg =
      (List.range M).map (fun c => c + 1) := by
  induction M with
  | zero => rfl
  | succ m ih =>
    simp [traceUpTo, List.filterMap_append, ih,
          filterMap_progressArg_cycleTrace, List.range_succ]

theorem count_range (n i : Nat) :
    (List.range n).count i = if i < n then 1 else 0 := by
  induction n with
  | zero => simp
  | succ m ih =>
    rw [List.range_succ, List.count_append, ih]
    simp only [List.count_cons, List.count_nil, beq_iff_eq, Nat.zero_add]
    split_ifs <;> omega

theorem count_dispatch_cycleTrace (N c' c i : Nat) :
    (cycleTrace N c').count (Event.dispatch c i) =
      if c' = c ∧ i < N then 1 else 0 := by
  rw [cycleTrace, List.count_cons]
  have hp : (Event.progress c' == Event.dispatch c i) = false := by
    simp
  rw [hp]
  by_cases hc : c' = c
  · subst hc
    have hinj : Function.Injective (Event.dispatch c') := by
      intro a b hab
      simpa using hab
    rw [List.count_map_of_injective _ _ hinj, count_range]
    by_cases h : i < N <;> simp [h]
  · have hz : ((List.range N).map (Event.dispatch c')).count
        (Event.dispatch c i) = 0 := by
      rw [List.count_eq_zero]
      intro h
      rcases List.mem_map.mp h with ⟨j, _, hj⟩
      exact hc ((show c' = c ∧ j = i by simpa using hj)).1
    rw [hz]
    simp [hc]

theorem count_dispatch_traceUpTo (N M c i : Nat) :
    (traceUpTo N M).count (Event.dispatch c i) =
      if 1 ≤ c ∧ c ≤ M ∧ i < N then 1 else 0 := by
  induction M with
  | zero =>
    have h0 : ¬ (1 ≤ c ∧ c = 0 ∧ i < N) := by omega
    simp [traceUpTo, h0]
  | succ m ih =>
    rw [traceUpTo, List.count_append, ih, count_dispatch_cycleTrace]
    split_ifs <;> omega

theorem sublist_traceUpTo (N M c i : Nat) (h1 : 1 ≤ c) (h2 : c ≤ M)
    (h3 : i < N) :
    [Event.progress c, Event.dispatch c i].Sublist (traceUpTo N M) := by
  induction M with
  | zero => omega
  | succ m ih =>
    rw [traceUpTo]
    by_cases hc : c ≤ m
    · exact (ih hc).trans (List.sublist_append_left _ _)
    · have hcm : c = m + 1 := by omega
      subst hcm
      refine List.Sublist.trans ?_ (List.sublist_append_right _ _)
      rw [cycleTrace]
      refine List.Sublist.cons₂ _ ?_
      rw [List.singleton_sublist]
      exact List.mem_map.mpr ⟨i, List.mem_range.mpr h3, rfl⟩

/-! ### Permutation transfer lemmas -/

theorem perm_nSucc {l1 l2 : List RequestResult} (h : l1.Perm l2) :
    nSucc l1 = nSucc l2 :=
  h.countP_eq _

theorem perm_nErr {l1 l2 : List RequestResult} (h : l1.Perm l2) :
    nErr l1 = nErr l2 :=
  h.countP_eq _

theorem perm_succDurs_sum {l1 l2 : List RequestResult} (h : l1.Perm l2) :
    (succDurs l1).sum = (succDurs l2).sum :=
  ((h.filter _).map _).sum_eq

theorem perm_succCodes_count {l1 l2 : List RequestResult} (h : l1.Perm l2)
    (k : Int) : (succCodes l1).count k = (succCodes l2).count k :=
  ((h.filter _).map _).count_eq _

/-! ### Remaining helper lemmas -/

theorem succCodes_length (l : List RequestResult) :
    (succCodes l).length = nSucc l := by
  simp [succCodes, succResults, nSucc, List.countP_eq_length_filter]

theorem mem_allSuccCodes (deliver : Nat → List RequestResult) (M : Nat)
    (x : Int) :
    x ∈ allSuccCodes deliver M →
      ∃ c, c < M ∧ x ∈ succCodes (deliver (c + 1)) := by
  induction M with
  | zero => simp [allSuccCodes]
  | succ m ih =>
    intro h
    rcases List.mem_append.mp h with h | h
    · rcases ih h with ⟨c, hc, hx⟩
      exact ⟨c, by omega, hx⟩
    · exact ⟨m, by omega, h⟩

/-- Formalisation of "the status string begins with a decimal integer":
after the scanner's space skipping, an optional sign followed by at least
one decimal digit. -/
def beginsWithDecimalInt (s : String) : Bool :=
  match s.data.dropWhile isScanSpace with
  | [] => false
  | c :: rest =>
      if c = '+' then !(rest.takeWhile Char.isDigit).isEmpty
      else if c = '-' then !(rest.takeWhile Char.isDigit).isEmpty
      else !(((c :: rest).takeWhile Char.isDigit)).isEmpty

/-! ### Concrete inputs used to instantiate the theorems -/

/-- A concrete target URL. -/
def urlW : String := "http://localhost:8025/"

/-- A transport that always completes with status line `"200 OK"`. -/
def netOkW : Nat → Nat → HTTPResult := fun _ _ => HTTPResult.response "200 OK"

/-- A transport that always fails at the connection level. -/
def netErrW : Nat → Nat → HTTPResult :=
  fun _ _ => HTTPResult.failure "dial tcp: connection refused"

/-- A constant 5 ns latency. -/
def durW : Nat → Nat → Int := fun _ _ => 5

/-- Channel contents for a run where every probe succeeds. -/
def deliverOkW : Nat → List RequestResult :=
  fun c => launchedResults urlW 2 netOkW durW c

/-- Channel contents for a run where every probe fails. -/
def deliverErrW : Nat → List RequestResult :=
  fun c => launchedResults urlW 2 netErrW durW c

/-- A transport where cycle 2's probe 1 fails and everything else succeeds. -/
def netMixW : Nat → Nat → HTTPResult :=
  fun c i =>
    if c = 2 ∧ i = 1 then HTTPResult.failure "connection refused"
    else HTTPResult.response "200 OK"

/-- Latencies 0 ns in cycle 1 and 6 ns in cycle 2. -/
def durMixW : Nat → Nat → Int := fun c _ => if c = 2 then 6 else 0

/-- Channel contents with two successes of latency 0 in cycle 1 and one
success of latency 6 (plus one error) in cycle 2. -/
def deliverMixW : Nat → List RequestResult :=
  fun c => launchedResults urlW 2 netMixW durMixW c

/-! ### The claims -/

/-- C1: for every cycle run with concurrency width N ≥ 1 whose result
channel delivers (in any order) exactly the N launched probe outcomes, the
cycle's statistics satisfy totalRequests = successCount + errorCount = N:
exactly N outcomes are collected and reduced, never fewer. -/
theorem claim1_cycle_counts (url : String) (N M : Nat)
    (net : Nat → Nat → HTTPResult) (dur : Nat → Nat → Int)
    (deliver : Nat → List RequestResult) (hN : 1 ≤ N)
    (hdeliv : ∀ c, 1 ≤ c → c ≤ M →
      (deliver c).Perm (launchedResults url N net dur c)) :
    ∀ cs ∈ (runAPITest N M deliver).1.cycleDetails,
      cs.totalRequests = cs.successCount + cs.errorCount ∧
      cs.totalRequests = N := by
  intro cs hcs
  rw [runAPITest_eq] at hcs
  have hcs' : cs ∈ cyclesList deliver M := by simpa using hcs
  rw [mem_cyclesList] at hcs'
  obtain ⟨c, hc, rfl⟩ := hcs'
  have hperm := hdeliv (c + 1) (by omega) (by omega)
  have hlen : (deliver (c + 1)).length = N := by
    rw [hperm.length_eq, launchedResults_length]
  refine ⟨?_, ?_⟩
  · simp [mkCycleStats, (nSucc_add_nErr (deliver (c + 1))).symm]
  · simp [mkCycleStats, hlen]

/-- Witness for C1: a concrete two-cycle run with width 2 where the channel
delivers the launched outcomes in launch order. -/
theorem claim1_cycle_counts_witness :
    (1 : Nat) ≤ 2 ∧
    ∀ cs ∈ (runAPITest 2 2 deliverOkW).1.cycleDetails,
      cs.totalRequests = cs.successCount + cs.errorCount ∧
      cs.totalRequests = 2 :=
  ⟨by decide,
   claim1_cycle_counts urlW 2 2 netOkW durW deliverOkW (by decide)
     (fun c h1 h2 => List.Perm.refl _)⟩

/-- C4: a probe outcome is classified a success iff the transport call
completed without a transport-level error: on a completed HTTP exchange the
outcome is a success with the status line recorded and no error set; on a
transport error (whose Go message is never empty) the outcome is a failure
carrying the error message and no status; the measured latency is present
in both cases. -/
theorem claim4_probe_classification (url : String) (id elapsed : Int)
    (net : HTTPResult)
    (hmsg : ∀ msg, net = HTTPResult.failure msg → msg ≠ "") :
    (checkStatus url id net elapsed).duration = elapsed ∧
    (∀ st, net = HTTPResult.response st →
      isSucc (checkStatus url id net elapsed) = true ∧
      (checkStatus url id net elapsed).status = st ∧
      (checkStatus url id net elapsed).error = "") ∧
    (∀ msg, net = HTTPResult.failure msg →
      isSucc (checkStatus url id net elapsed) = false ∧
      (checkStatus url id net elapsed).error = msg ∧
      (checkStatus url id net elapsed).status = "") := by
  refine ⟨?_, ?_, ?_⟩
  · cases net <;> simp [checkStatus]
  · intro st h
    subst h
    simp [checkStatus, isSucc]
  · intro msg h
    subst h
    have hne := hmsg msg rfl
    simp [checkStatus, isSucc, hne]

/-- Witness for C4: a concrete failed probe with message
"connection refused" and latency 7 ns. -/
theorem claim4_probe_classification_witness :
    (checkStatus urlW 0 (HTTPResult.failure "connection refused") 7).duration
      = 7 ∧
    isSucc (checkStatus urlW 0 (HTTPResult.failure "connection refused") 7)
      = false := by
  have hmsg : ∀ msg,
      HTTPResult.failure "connection refused" = HTTPResult.failure msg →
        msg ≠ "" := by
    intro msg h
    cases h
    decide
  have h := claim4_probe_classification urlW 0 7
    (HTTPResult.failure "connection refused") hmsg
  exact ⟨h.1, (h.2.2 "connection refused" rfl).1⟩

/-- C6: the average latency field is left unset (`none`, the Go empty
string, distinct from a zero duration) whenever successCount = 0, at both
the cycle scope and the run scope. -/
theorem claim6_avg_unset_on_zero_success (N M : Nat)
    (deliver : Nat → List RequestResult) :
    (∀ cs ∈ (runAPITest N M deliver).1.cycleDetails,
        cs.successCount = 0 → cs.avgDurationMS = none) ∧
    ((runAPITest N M deliver).1.successCount = 0 →
        (runAPITest N M deliver).1.avgDurationMS = none) := by
  rw [runAPITest_eq]
  refine ⟨?_, ?_⟩
  · intro cs hcs h0
    have hcs' : cs ∈ cyclesList deliver M := by simpa using hcs
    rw [mem_cyclesList] at hcs'
    obtain ⟨c, hc, rfl⟩ := hcs'
    have hz : nSucc (deliver (c + 1)) = 0 := by
      simpa [mkCycleStats] using h0
    simp [mkCycleStats, hz]
  · intro h0
    have hz : totalOf nSucc deliver M = 0 := by simpa using h0
    have hlen : (allSuccDurs deliver M).length = 0 := by
      rw [allSuccDurs_length, hz]
    simp [hlen]

/-- Witness for C6: a run where every probe fails has zero successes and an
unset run-level average. -/
theorem claim6_avg_unset_on_zero_success_witness :
    (runAPITest 2 1 deliverErrW).1.successCount = 0 ∧
    (runAPITest 2 1 deliverErrW).1.avgDurationMS = none :=
  ⟨by decide,
   (claim6_avg_unset_on_zero_success 2 1 deliverErrW).2 (by decide)⟩

/-- C7: if the cycle body is reached with concurrency width 0 (a
precondition breach), no probes are launched, the channel delivers nothing,
and the cycle is recorded with all-zero counts, an empty histogram and an
unset average, rather than failing. -/
theorem claim7_zero_width_cycle (url : String) (cycle : Nat)
    (net : Nat → Nat → HTTPResult) (dur : Nat → Nat → Int)
    (delivered : List RequestResult) (report : Report) (tds : List Int)
    (hdeliv : delivered.Perm (launchedResults url 0 net dur cycle)) :
    cycleBody cycle delivered report tds =
      ({ report with cycleDetails := report.cycleDetails ++
          [{ cycleNumber := cycle, totalRequests := 0, successCount := 0,
             errorCount := 0, avgDurationMS := none, responseCodes := [] }] },
       tds) := by
  have hlaunch : launchedResults url 0 net dur cycle = [] := by
    simp [launchedResults]
  rw [hlaunch] at hdeliv
  have hnil : delivered = [] := List.Perm.eq_nil hdeliv
  subst hnil
  rw [cycleBody_eq]
  simp [mkCycleStats, nSucc, nErr, succCodes, succDurs, succResults, histAll]

/-- Witness for C7: the zero-width cycle body on the initial report. -/
theorem claim7_zero_width_cycle_witness :
    cycleBody 3 [] report0 [] =
      ({ report0 with cycleDetails := report0.cycleDetails ++
          [{ cycleNumber := 3, totalRequests := 0, successCount := 0,
             errorCount := 0, avgDurationMS := none, responseCodes := [] }] },
       ([] : List Int)) := by
  have hperm : ([] : List RequestResult).Perm
      (launchedResults urlW 0 netOkW durW 3) := by
    simp [launchedResults]
  exact claim7_zero_width_cycle urlW 3 netOkW durW [] report0 [] hperm

/-- C2: for every run whose channel delivers exactly the launched outcomes,
the final report is the merge of its per-cycle statistics: totalRequests is
the sum of the per-cycle totals and equals N × cycleCount, successCount and
errorCount are sums, every histogram bucket is the sum of the per-cycle
buckets for that code, and cycleDetails lists exactly one entry per cycle
with cycleNumber strictly increasing 1..cycleCount, no gaps or
duplicates. -/
theorem claim2_report_merge (url : String) (N M : Nat)
    (net : Nat → Nat → HTTPResult) (dur : Nat → Nat → Int)
    (deliver : Nat → List RequestResult) (hM : 1 ≤ M)
    (hdeliv : ∀ c, 1 ≤ c → c ≤ M →
      (deliver c).Perm (launchedResults url N net dur c)) :
    ((runAPITest N M deliver).1.totalRequests =
        ((runAPITest N M deliver).1.cycleDetails.map
          (fun cs => cs.totalRequests)).sum) ∧
    (runAPITest N M deliver).1.totalRequests = N * M ∧
    ((runAPITest N M deliver).1.successCount =
        ((runAPITest N M deliver).1.cycleDetails.map
          (fun cs => cs.successCount)).sum) ∧
    ((runAPITest N M deliver).1.errorCount =
        ((runAPITest N M deliver).1.cycleDetails.map
          (fun cs => cs.errorCount)).sum) ∧
    (∀ k : Int, histCount (runAPITest N M deliver).1.responseCodes k =
        ((runAPITest N M deliver).1.cycleDetails.map
          (fun cs => histCount cs.responseCodes k)).sum) ∧
    (runAPITest N M deliver).1.cycleDetails.map (fun cs => cs.cycleNumber) =
      (List.range M).map (fun c => c + 1) := by
  have hlen : ∀ c, 1 ≤ c → c ≤ M → (deliver c).length = N := by
    intro c h1 h2
    rw [(hdeliv c h1 h2).length_eq, launchedResults_length]
  rw [runAPITest_eq]
  refine ⟨?_, ?_, ?_, ?_, ?_, ?_⟩
  · simpa using (cyclesList_map_sum deliver M
      (fun cs => cs.totalRequests) (fun l => l.length)
      (fun c l => rfl)).symm
  · have := totalOf_const (fun l => l.length) deliver M N hlen
    simpa [Nat.mul_comm] using this
  · simpa using (cyclesList_map_sum deliver M
      (fun cs => cs.successCount) nSucc (fun c l => rfl)).symm
  · simpa using (cyclesList_map_sum deliver M
      (fun cs => cs.errorCount) nErr (fun c l => rfl)).symm
  · intro k
    have h1 : histCount (histAll [] (allSuccCodes deliver M)) k =
        (allSuccCodes deliver M).count k := by
      rw [histCount_histAll]
      simp [histCount]
    simpa [h1] using allSuccCodes_count deliver M k
  · simpa using cyclesList_map_cycleNumber deliver M

/-- Witness for C2: the concrete two-cycle width-2 all-success run. -/
theorem claim2_report_merge_witness :
    (runAPITest 2 2 deliverOkW).1.totalRequests = 2 * 2 ∧
    ((runAPITest 2 2 deliverOkW).1.cycleDetails.map
      (fun cs => cs.cycleNumber) = (List.range 2).map (fun c => c + 1)) := by
  have h := claim2_report_merge urlW 2 2 netOkW durW deliverOkW (by decide)
    (fun c h1 h2 => List.Perm.refl _)
  exact ⟨h.2.1, h.2.2.2.2.2⟩

/-- C3: the run-level average latency is the count-weighted mean of the raw
pool of all successful probes' latencies across the whole run (pool sum
divided by the run-wide success count), and on a concrete run with uneven
per-cycle success counts it differs from the unweighted mean of the
per-cycle averages. -/
theorem claim3_weighted_average (N M : Nat)
    (deliver : Nat → List RequestResult)
    (hpos : 0 < totalOf nSucc deliver M) :
    (runAPITest N M deliver).1.successCount = totalOf nSucc deliver M ∧
    (runAPITest N M deliver).1.avgDurationMS =
      some (Int.tdiv (allSuccDurs deliver M).sum
        ((totalOf nSucc deliver M : Nat) : Int)) ∧
    (runAPITest 2 2 deliverMixW).1.avgDurationMS ≠
      some (Int.tdiv
        ((runAPITest 2 2 deliverMixW).1.cycleDetails.filterMap
          (fun cs => cs.avgDurationMS)).sum 2) := by
  refine ⟨?_, ?_, by decide⟩
  · rw [runAPITest_eq]
  · rw [runAPITest_eq]
    have hlen : 0 < (allSuccDurs deliver M).length := by
      rw [allSuccDurs_length]
      exact hpos
    simp [hlen, calculateAverageDuration_eq, allSuccDurs_length]
    omega

/-- Witness for C3: the all-success width-2 single-cycle run has two
successes, and its run average is the pooled quotient. -/
theorem claim3_weighted_average_witness :
    0 < totalOf nSucc deliverOkW 1 ∧
    (runAPITest 2 1 deliverOkW).1.avgDurationMS =
      some (Int.tdiv (allSuccDurs deliverOkW 1).sum
        ((totalOf nSucc deliverOkW 1 : Nat) : Int)) :=
  ⟨by decide, (claim3_weighted_average 2 1 deliverOkW (by decide)).2.1⟩

/-- C5: for every cycle's statistics and for the run-level report, the sum
of the response-code histogram's values equals successCount, and every key
present in the histogram is the parsed status code of some successful
outcome of the corresponding cycle (error outcomes never contribute a
bucket). -/
theorem claim5_histogram_invariants (N M : Nat)
    (deliver : Nat → List RequestResult) :
    (∀ c, c < M →
      ∃ cs, (runAPITest N M deliver).1.cycleDetails[c]? = some cs ∧
        histValueSum cs.responseCodes = cs.successCount ∧
        ∀ kv ∈ cs.responseCodes, ∃ r, r ∈ deliver (c + 1) ∧
          isSucc r = true ∧ kv.1 = sscanfInt r.status) ∧
    histValueSum (runAPITest N M deliver).1.responseCodes =
      (runAPITest N M deliver).1.successCount ∧
    (∀ kv ∈ (runAPITest N M deliver).1.responseCodes,
      ∃ c, c < M ∧ ∃ r, r ∈ deliver (c + 1) ∧ isSucc r = true ∧
        kv.1 = sscanfInt r.status) := by
  rw [runAPITest_eq]
  refine ⟨?_, ?_, ?_⟩
  · intro c hc
    refine ⟨mkCycleStats (c + 1) (deliver (c + 1)), ?_, ?_, ?_⟩
    · simpa using cyclesList_getElem deliver M c hc
    · have h := histValueSum_histAll [] (succCodes (deliver (c + 1)))
      simp [histValueSum] at h
      simpa [mkCycleStats, histValueSum, succCodes_length] using h
    · intro kv hkv
      have hkv' : kv ∈ histAll [] (succCodes (deliver (c + 1))) := by
        simpa [mkCycleStats] using hkv
      rcases mem_histAll _ _ _ hkv' with h | h
      · simp at h
      · rcases List.mem_map.mp (by simpa [succCodes] using h) with ⟨r, hr, hre⟩
        rcases List.mem_filter.mp (by simpa [succResults] using hr) with
          ⟨hmem, hsucc⟩
        exact ⟨r, hmem, hsucc, hre.symm⟩
  · have h := histValueSum_histAll [] (allSuccCodes deliver M)
    simp [histValueSum] at h
    simpa [histValueSum, allSuccCodes_length] using h
  · intro kv hkv
    have hkv' : kv ∈ histAll [] (allSuccCodes deliver M) := by simpa using hkv
    rcases mem_histAll _ _ _ hkv' with h | h
    · simp at h
    · rcases mem_allSuccCodes deliver M _ h with ⟨c, hc, hx⟩
      rcases List.mem_map.mp (by simpa [succCodes] using hx) with ⟨r, hr, hre⟩
      rcases List.mem_filter.mp (by simpa [succResults] using hr) with
        ⟨hmem, hsucc⟩
      exact ⟨c, hc, r, hmem, hsucc, hre.symm⟩

/-- Witness for C5: cycle 1 of the all-success run. -/
theorem claim5_histogram_invariants_witness :
    ∃ cs, (runAPITest 2 1 deliverOkW).1.cycleDetails[0]? = some cs ∧
      histValueSum cs.responseCodes = cs.successCount ∧
      ∀ kv ∈ cs.responseCodes, ∃ r, r ∈ deliverOkW 1 ∧
        isSucc r = true ∧ kv.1 = sscanfInt r.status :=
  (claim5_histogram_invariants 2 1 deliverOkW).1 0 (by decide)

/-- C9: whenever successCount > 0, the recorded average is the integer
quotient of the nanosecond sum of the successful latencies by the success
count, truncated toward zero (`Int.tdiv`, Go's signed integer division) —
remainders are discarded, not rounded — at both the cycle scope and the run
scope. -/
theorem claim9_truncating_average (N M : Nat)
    (deliver : Nat → List RequestResult) :
    (∀ c, c < M → 0 < nSucc (deliver (c + 1)) →
      ∃ cs, (runAPITest N M deliver).1.cycleDetails[c]? = some cs ∧
        cs.avgDurationMS =
          some (Int.tdiv (succDurs (deliver (c + 1))).sum
            ((nSucc (deliver (c + 1)) : Nat) : Int))) ∧
    (0 < totalOf nSucc deliver M →
      (runAPITest N M deliver).1.avgDurationMS =
        some (Int.tdiv (allSuccDurs deliver M).sum
          ((totalOf nSucc deliver M : Nat) : Int))) := by
  rw [runAPITest_eq]
  refine ⟨?_, ?_⟩
  · intro c hc hsucc
    refine ⟨mkCycleStats (c + 1) (deliver (c + 1)), ?_, ?_⟩
    · simpa using cyclesList_getElem deliver M c hc
    · simp [mkCycleStats, hsucc, calculateAverageDuration_eq, succDurs_length]
  · intro hpos
    have hlen : 0 < (allSuccDurs deliver M).length := by
      rw [allSuccDurs_length]
      exact hpos
    simp [hlen, calculateAverageDuration_eq, allSuccDurs_length]
    omega

/-- Witness for C9: cycle 1 of the all-success run with 5 ns latencies. -/
theorem claim9_truncating_average_witness :
    0 < nSucc (deliverOkW 1) ∧
    ∃ cs, (runAPITest 2 1 deliverOkW).1.cycleDetails[0]? = some cs ∧
      cs.avgDurationMS =
        some (Int.tdiv (succDurs (deliverOkW 1)).sum
          ((nSucc (deliverOkW 1) : Nat) : Int)) :=
  ⟨by decide,
   (claim9_truncating_average 2 1 deliverOkW).1 0 (by decide) (by decide)⟩

/-- C8: over a run of cycleCount ≥ 1 cycles, the progress callback is
invoked exactly cycleCount times with strictly increasing arguments
1..cycleCount (the trace's progress events are exactly that list, in
order), and each invocation precedes that cycle's probe dispatches: every
dispatch event of a cycle occurs exactly once and is preceded in the trace
by that cycle's progress event. -/
theorem claim8_progress_trace (N M : Nat)
    (deliver : Nat → List RequestResult) (hM : 1 ≤ M) :
    ((runAPITest N M deliver).2.filterMap progressArg =
      (List.range M).map (fun c => c + 1)) ∧
    (∀ c, 1 ≤ c → c ≤ M → ∀ i, i < N →
      (runAPITest N M deliver).2.count (Event.dispatch c i) = 1 ∧
      [Event.progress c, Event.dispatch c i].Sublist
        (runAPITest N M deliver).2) := by
  have htr : (runAPITest N M deliver).2 = traceUpTo N M := by
    rw [runAPITest_eq]
  rw [htr]
  refine ⟨filterMap_progressArg_traceUpTo N M, ?_⟩
  intro c h1 h2 i hi
  refine ⟨?_, sublist_traceUpTo N M c i h1 h2 hi⟩
  rw [count_dispatch_traceUpTo]
  simp [h1, h2, hi]

/-- Witness for C8: the width-2 two-cycle run, cycle 1, probe 0. -/
theorem claim8_progress_trace_witness :
    ((runAPITest 2 2 deliverOkW).2.filterMap progressArg =
      (List.range 2).map (fun c => c + 1)) ∧
    (runAPITest 2 2 deliverOkW).2.count (Event.dispatch 1 0) = 1 :=
  ⟨(claim8_progress_trace 2 2 deliverOkW (by decide)).1,
   ((claim8_progress_trace 2 2 deliverOkW (by decide)).2 1 (by decide)
     (by decide) 0 (by decide)).1⟩

/-- C10: the histogram key recorded for each successful outcome is the
leading decimal integer scanned from its textual status line (each cycle's
bucket for `k` counts the successes whose parsed status is `k`), and a
status string that does not begin with a decimal integer parses to 0, so
such a success is counted under histogram key 0. -/
theorem claim10_status_parsing (N M : Nat)
    (deliver : Nat → List RequestResult) :
    (∀ c, c < M →
      ∃ cs, (runAPITest N M deliver).1.cycleDetails[c]? = some cs ∧
        ∀ k : Int, histCount cs.responseCodes k =
          (succCodes (deliver (c + 1))).count k) ∧
    (∀ s : String, beginsWithDecimalInt s = false → sscanfInt s = 0) := by
  refine ⟨?_, ?_⟩
  · intro c hc
    refine ⟨mkCycleStats (c + 1) (deliver (c + 1)), ?_, ?_⟩
    · rw [runAPITest_eq]
      simpa using cyclesList_getElem deliver M c hc
    · intro k
      exact histCount_mkCycleStats (c + 1) (deliver (c + 1)) k
  · intro s hs
    unfold beginsWithDecimalInt at hs
    unfold sscanfInt
    cases hcs : s.data.dropWhile isScanSpace with
    | nil => rfl
    | cons c rest =>
      rw [hcs] at hs
      by_cases h1 : c = '+'
      · subst h1
        simp at hs
        simp [goScanDigits, hs]
      · by_cases h2 : c = '-'
        · subst h2
          simp at hs
          simp [goScanDigits, hs]
        · simp [h1, h2] at hs ⊢
          simp [goScanDigits, hs]

/-- Witness for C10: cycle 1 of the all-success run, plus a status line
with no leading integer parsing to key 0. -/
theorem claim10_status_parsing_witness :
    sscanfInt "Fancy Status" = 0 ∧
    ∃ cs, (runAPITest 2 1 deliverOkW).1.cycleDetails[0]? = some cs ∧
      ∀ k : Int, histCount cs.responseCodes k =
        (succCodes (deliverOkW 1)).count k :=
  ⟨(claim10_status_parsing 2 1 deliverOkW).2 "Fancy Status" (by decide),
   (claim10_status_parsing 2 1 deliverOkW).1 0 (by decide)⟩
